import Mathlib

/-!
Verification development for the cupoch stereo example
(`examples/python/advanced/stereo.py`) and the Semi-Global Matching
(SGM) disparity engine it invokes.  The script itself only wires the
engine together; the engine (`SGMOption`, `SemiGlobalMatching`,
`process_frame`, `DisparityMap.linear_transform`) lives in the native
library, outside the example sources, so the engine is modelled from
the specification and the claims are settled against that model.
-/

namespace SGM

/-- Modelled from the spec: error taxonomy of the engine.  `ConfigError`
is a bad engine configuration, surfaced at construction;
`DimensionMismatchError` means the input images do not match the
configuration, surfaced per call. -/
inductive SGMError where
  | configError : SGMError
  | dimensionMismatchError : SGMError
deriving DecidableEq, Repr

/-- Modelled from the spec: an image is a width, a height and a row-major
pixel buffer of 8-bit intensities (stride = width).  Out-of-buffer reads
are absent in the engine; the accessor totalises them with 0. -/
structure Image where
  width : ℕ
  height : ℕ
  data : List ℕ
deriving DecidableEq, Repr

/-- Pixel accessor: row-major, stride = width. -/
def Image.pix (img : Image) (x y : ℕ) : ℕ :=
  img.data.getD (y * img.width + x) 0

/-- Modelled from the spec: the `SGMOption` configuration record with the
recognized options (expected image dimensions, disparity search range,
smoothness penalties, path count, uniqueness threshold, subpixel flag).
The uniqueness threshold is a percentage, as in standard SGM
formulations. -/
structure SGMOption where
  width : ℕ
  height : ℕ
  max_disparity : ℕ
  p1 : ℕ
  p2 : ℕ
  path_count : ℕ
  uniqThresh : ℕ
  subpixel : Bool
deriving DecidableEq, Repr

/-- Modelled from the spec: the engine instance; it holds only the
validated configuration (each `process_frame` call is stateless with
respect to prior calls). -/
structure Engine where
  options : SGMOption
deriving DecidableEq, Repr

/-- Modelled from the spec: `new(options)` validates `options.width > 0`,
`options.height > 0`, `max_disparity > 0` and fails with `ConfigError`
otherwise. -/
def SemiGlobalMatching (o : SGMOption) : Except SGMError Engine :=
  if 0 < o.width ∧ 0 < o.height ∧ 0 < o.max_disparity then
    Except.ok ⟨o⟩
  else
    Except.error SGMError.configError

/-- Modelled from the spec: large sentinel cost assigned to out-of-range
matches (uint16 cost type). -/
def COST_SENTINEL : ℕ := 65535

/-- Modelled from the spec, step 1 (cost computation): per-pixel
dissimilarity (absolute difference) between `left(x,y)` and
`right(x-d,y)`; out-of-range `x-d` costs are the large sentinel. -/
def leftCost (L R : Image) (x y d : ℕ) : ℕ :=
  if d ≤ x then ((L.pix x y : ℤ) - (R.pix (x - d) y : ℤ)).natAbs
  else COST_SENTINEL

/-- Modelled from the spec, step 4 (consistency): the mirrored cost used
for the right-to-left match, comparing `right(x,y)` with `left(x+d,y)`;
out-of-range `x+d` costs are the large sentinel. -/
def rightCost (L R : Image) (x y d : ℕ) : ℕ :=
  if x + d < R.width then ((R.pix x y : ℤ) - (L.pix (x + d) y : ℤ)).natAbs
  else COST_SENTINEL

/-- Minimum of `f` over the disparity range `[0, n)` (0 when the range is
empty). -/
def minCost (f : ℕ → ℕ) : ℕ → ℕ
  | 0 => 0
  | 1 => f 0
  | n + 2 => min (minCost f (n + 1)) (f (n + 1))

/-- Smallest disparity in `[0, n)` attaining the minimal cost
(winner-take-all with smallest-index tie-break, a standard SGM choice the
spec leaves open). -/
def argminCost (f : ℕ → ℕ) (n : ℕ) : ℕ :=
  ((List.range n).find? (fun d => f d ≤ minCost f n)).getD 0

/-- Modelled from the spec, step 2 (path aggregation): the K aggregation
directions, 8 when the configured path count is 8 and the standard 4
otherwise. -/
def directions (pathCount : ℕ) : List (ℤ × ℤ) :=
  if pathCount = 8 then
    [(-1, 0), (1, 0), (0, -1), (0, 1), (-1, -1), (1, -1), (-1, 1), (1, 1)]
  else
    [(-1, 0), (1, 0), (0, -1), (0, 1)]

/-- Modelled from the spec, step 2 (path aggregation): aggregated cost at
pixel `(x, y)` and disparity `d` along the 1D path of direction
`(dx, dy)`: raw cost plus the minimum over the neighbouring pixel's
aggregated costs at `d` (no penalty), `d ± 1` (penalty P1) or any other
disparity (penalty P2), minus the running minimum at the previous pixel.
`C` is the raw cost volume; the recursion walks back against the
direction and bottoms out at the image border (the `fuel` argument only
bounds the recursion; with `fuel ≥ width + height` — as used below — the
border is reached first). -/
def aggCostF (o : SGMOption) (C : ℕ → ℕ → ℕ → ℕ) (dx dy : ℤ) :
    ℕ → ℤ → ℤ → ℕ → ℕ
  | 0, x, y, d => C x.toNat y.toNat d
  | fuel + 1, x, y, d =>
    let c := C x.toNat y.toNat d
    let px := x - dx
    let py := y - dy
    if px < 0 ∨ py < 0 ∨ (o.width : ℤ) ≤ px ∨ (o.height : ℤ) ≤ py then c
    else
      let prev := fun k => aggCostF o C dx dy fuel px py k
      let minK := minCost prev o.max_disparity
      let t0 := prev d
      let t1 := if d = 0 then COST_SENTINEL + o.p1 else prev (d - 1) + o.p1
      let t2 := if d + 1 < o.max_disparity then prev (d + 1) + o.p1
                else COST_SENTINEL + o.p1
      c + (min (min t0 (min t1 t2)) (minK + o.p2) - minK)

/-- Modelled from the spec, step 2: total aggregated cost at a pixel and
disparity, the sum of the K directional aggregations. -/
def totalCost (o : SGMOption) (C : ℕ → ℕ → ℕ → ℕ) (x y d : ℕ) : ℕ :=
  ((directions o.path_count).map
    (fun dir => aggCostF o C dir.1 dir.2 (o.width + o.height) x y d)).sum

/-- Modelled from the spec, step 4 (uniqueness): cost of the best
candidate other than `best` (the sentinel when the range has no other
candidate). -/
def secondBest (f : ℕ → ℕ) (n best : ℕ) : ℕ :=
  minCost (fun d => if d = best then COST_SENTINEL else f d) n

/-- Modelled from the spec, step 4 (uniqueness): reject a pixel when the
second-best cost is not sufficiently worse than the best, with a
percentage ratio threshold (standard SGM formulation; the spec leaves the
exact formula open). -/
def uniquenessReject (f : ℕ → ℕ) (n best ratioPct : ℕ) : Bool :=
  secondBest f n best * 100 < f best * (100 + ratioPct)

/-- Modelled from the spec, step 5 (sub-pixel refinement): fit a parabola
through `cost(d-1), cost(d), cost(d+1)` around the selected integer
disparity and output the refined minimum location; only applicable when
both neighbours are inside the search range and the parabola opens
upwards. -/
def refine (f : ℕ → ℕ) (d n : ℕ) : ℚ :=
  if 1 ≤ d ∧ d + 2 ≤ n then
    if 0 < (f (d - 1) : ℚ) + (f (d + 1) : ℚ) - 2 * (f d : ℚ) then
      (d : ℚ) + ((f (d - 1) : ℚ) - (f (d + 1) : ℚ)) /
        (2 * ((f (d - 1) : ℚ) + (f (d + 1) : ℚ) - 2 * (f d : ℚ)))
    else (d : ℚ)
  else (d : ℚ)

/-- Modelled from the spec, steps 2–5: the disparity computed at one
pixel — winner-take-all over the aggregated costs, uniqueness filtering,
left/right consistency filtering (tolerance 1 pixel), optional sub-pixel
refinement.  `none` is the invalid sentinel. -/
def disparityAt (o : SGMOption) (L R : Image) (x y : ℕ) : Option ℚ :=
  let f := fun d => totalCost o (leftCost L R) x y d
  let best := argminCost f o.max_disparity
  if uniquenessReject f o.max_disparity best o.uniqThresh then none
  else
    let g := fun d => totalCost o (rightCost L R) (x - best) y d
    let bestR := argminCost g o.max_disparity
    if 1 < ((bestR : ℤ) - (best : ℤ)).natAbs then none
    else if o.subpixel then some (refine f best o.max_disparity)
    else some (best : ℚ)

/-- Modelled from the spec: the disparity map — same width/height as the
input, one value per pixel (`none` is the invalid sentinel); row-major. -/
structure DisparityMap where
  width : ℕ
  height : ℕ
  data : List (Option ℚ)
deriving DecidableEq, Repr

/-- Modelled from the spec: `process_frame(left, right)` fails with
`DimensionMismatchError` when either input's dimensions disagree with the
configuration, atomically (no partial result); otherwise it runs the SGM
pipeline at every pixel and returns a fresh `DisparityMap`. -/
def process_frame (e : Engine) (L R : Image) : Except SGMError DisparityMap :=
  let o := e.options
  if L.width = o.width ∧ L.height = o.height ∧
     R.width = o.width ∧ R.height = o.height then
    Except.ok
      { width := o.width
        height := o.height
        data := (List.range (o.height * o.width)).map
          (fun i => disparityAt o L R (i % o.width) (i / o.width)) }
  else Except.error SGMError.dimensionMismatchError

/-- Clamp a rational to the interval `[lo, hi]`. -/
def clampQ (lo hi v : ℚ) : ℚ :=
  if v < lo then lo else if hi < v then hi else v

/-- Modelled from the spec: the output value range of the 8-bit
visualization intensities a `linear_transform` clamps to. -/
def OUT_LO : ℚ := 0

/-- Modelled from the spec: upper end of the output value range. -/
def OUT_HI : ℚ := 255

/-- Modelled from the spec: `DisparityMap.linear_transform(scale, offset)`
remaps every valid pixel in place to `value*scale + offset`, clamped to
the output value range; invalid pixels pass through unchanged; it never
fails. -/
def DisparityMap.linear_transform (m : DisparityMap) (scale : ℚ)
    (offset : ℚ := 0) : DisparityMap :=
  { m with
    data := m.data.map
      (fun p => p.map (fun v => clampQ OUT_LO OUT_HI (v * scale + offset))) }

/-- Modelled from the spec: the engine call at the API level, with the
engine state threaded explicitly; per the lifecycle section each call is
stateless with respect to prior calls, side-effect free beyond the
returned map, and mutates neither its inputs nor the engine, so the call
returns the pure pipeline result together with the unchanged engine
state and the unchanged input images. -/
def processFrameCall (s : Engine) (L R : Image) :
    Except SGMError DisparityMap × Engine × Image × Image :=
  (process_frame s L R, s, L, R)

/-- Model of the example script, lines 8–12: a default `SGMOption` `base`
has its `width`/`height` fields overwritten with the left image's
dimensions before the engine is constructed (the library's other default
fields are not observable from the script and stay abstract in `base`). -/
def scriptParams (base : SGMOption) (limg : Image) : SGMOption :=
  { base with width := limg.width, height := limg.height }

/-- Concrete configuration used by the witnesses: a valid 1×1 engine
with one candidate disparity. -/
def wOpt : SGMOption :=
  { width := 1, height := 1, max_disparity := 1, p1 := 0, p2 := 0
    path_count := 4, uniqThresh := 0, subpixel := false }

/-- Concrete engine for the witnesses. -/
def wEng : Engine := ⟨wOpt⟩

/-- Concrete 1×1 image for the witnesses. -/
def wImg : Image := ⟨1, 1, [5]⟩

/-- Concrete configuration from the spec's dimension-mismatch example:
width 100, height 50. -/
def wOpt100 : SGMOption :=
  { width := 100, height := 50, max_disparity := 16, p1 := 10, p2 := 120
    path_count := 4, uniqThresh := 0, subpixel := false }

/-- Concrete 90×50 image (as a mismatched input); the engine rejects it
before touching the buffer, so an empty buffer suffices. -/
def wImg90 : Image := ⟨90, 50, []⟩

/-- Concrete one-pixel disparity map used by the counterexample to the
unclamped composition law. -/
def cexMap : DisparityMap := ⟨1, 1, [some 100]⟩

/-- Concrete two-pixel disparity map (one valid, one invalid pixel) used
by witnesses about `linear_transform`. -/
def wMap : DisparityMap := ⟨2, 1, [some 3, none]⟩

/-- Concrete 1×2 image whose dimensions differ from `wImg2`, for the
script-model witness. -/
def wImgR : Image := ⟨1, 2, [7, 7]⟩

/-- Concrete 2×2 left image for the script-model witness. -/
def wImg2 : Image := ⟨2, 2, [1, 2, 3, 4]⟩

/-- Concrete engine the script model constructs from `wImg2`. -/
def wEng2 : Engine := ⟨scriptParams wOpt wImg2⟩

/-- Concrete disparity map `process_frame wEng wImg wImg` returns. -/
def wDispMap : DisparityMap := ⟨1, 1, [some 0]⟩

end SGM

namespace SGM

theorem minCost_le (f : ℕ → ℕ) : ∀ n, ∀ d, d < n → minCost f n ≤ f d := by
  intro n
  induction n with
  | zero => intro d hd; omega
  | succ k ih =>
    intro d hd
    match k, hd with
    | 0, _ =>
      interval_cases d
      simp [minCost]
    | m + 1, hd =>
      rcases Nat.lt_succ_iff_lt_or_eq.mp hd with h | h
      · exact le_trans (min_le_left _ _) (ih d h)
      · subst h; exact min_le_right _ _

theorem minCost_exists (f : ℕ → ℕ) :
    ∀ n, 0 < n → ∃ d, d < n ∧ minCost f n = f d := by
  intro n
  induction n with
  | zero => intro h; omega
  | succ k ih =>
    intro _
    match k with
    | 0 => exact ⟨0, by omega, rfl⟩
    | m + 1 =>
      obtain ⟨d, hd, hmin⟩ := ih (by omega)
      rcases le_total (minCost f (m + 1)) (f (m + 1)) with h | h
      · exact ⟨d, by omega, by simpa [minCost, min_eq_left h] using hmin⟩
      · exact ⟨m + 1, by omega, by simp [minCost, min_eq_right h]⟩

theorem minCost_eq_zero (f : ℕ → ℕ) (h0 : f 0 = 0) :
    ∀ n, minCost f n = 0 := by
  intro n
  induction n with
  | zero => rfl
  | succ k ih =>
    match k with
    | 0 => simpa [minCost] using h0
    | m + 1 => simp [minCost, ih]

theorem argminCost_lt (f : ℕ → ℕ) (n : ℕ) (h : 0 < n) :
    argminCost f n < n := by
  unfold argminCost
  cases hf : (List.range n).find? (fun d => f d ≤ minCost f n) with
  | none => simpa using h
  | some a =>
    have := List.mem_of_find?_eq_some hf
    simpa [List.mem_range] using this

theorem argminCost_le (f : ℕ → ℕ) (n : ℕ) (h : 0 < n) :
    ∀ d, d < n → f (argminCost f n) ≤ f d := by
  intro d hd
  unfold argminCost
  cases hf : (List.range n).find? (fun d => f d ≤ minCost f n) with
  | none =>
    exfalso
    obtain ⟨d0, hd0, hmin⟩ := minCost_exists f n h
    have := List.find?_eq_none.mp hf d0 (by simpa [List.mem_range] using hd0)
    simp [hmin] at this
  | some a =>
    have ha : f a ≤ minCost f n := by simpa using List.find?_some hf
    exact le_trans ha (minCost_le f n d hd)

theorem argminCost_eq_zero (f : ℕ → ℕ) (n : ℕ) (h : 0 < n) (h0 : f 0 = 0) :
    argminCost f n = 0 := by
  obtain ⟨k, rfl⟩ := Nat.exists_eq_succ_of_ne_zero (Nat.pos_iff_ne_zero.mp h)
  unfold argminCost
  rw [List.range_succ_eq_map]
  rw [List.find?_cons_of_pos _ (by simp [h0])]
  rfl

theorem aggCostF_zero (o : SGMOption) (C : ℕ → ℕ → ℕ → ℕ) (dx dy : ℤ)
    (hC : ∀ a b, a < o.width → b < o.height → C a b 0 = 0) :
    ∀ fuel (x y : ℤ), 0 ≤ x → x < (o.width : ℤ) → 0 ≤ y → y < (o.height : ℤ) →
      aggCostF o C dx dy fuel x y 0 = 0 := by
  intro fuel
  induction fuel with
  | zero =>
    intro x y hx0 hxw hy0 hyh
    simp only [aggCostF]
    exact hC _ _ (by omega) (by omega)
  | succ k ih =>
    intro x y hx0 hxw hy0 hyh
    simp only [aggCostF]
    split
    · exact hC _ _ (by omega) (by omega)
    · rename_i hin
      push_neg at hin
      obtain ⟨h1, h2, h3, h4⟩ := hin
      have hprev0 : aggCostF o C dx dy k (x - dx) (y - dy) 0 = 0 :=
        ih (x - dx) (y - dy) (by omega) (by omega) (by omega) (by omega)
      have hminK :
          minCost (fun kk => aggCostF o C dx dy k (x - dx) (y - dy) kk)
            o.max_disparity = 0 :=
        minCost_eq_zero _ hprev0 _
      have hc0 : C x.toNat y.toNat 0 = 0 :=
        hC x.toNat y.toNat (by omega) (by omega)
      simp [hprev0, hminK, hc0]

theorem totalCost_zero (o : SGMOption) (C : ℕ → ℕ → ℕ → ℕ)
    (hC : ∀ a b, a < o.width → b < o.height → C a b 0 = 0)
    (x y : ℕ) (hx : x < o.width) (hy : y < o.height) :
    totalCost o C x y 0 = 0 := by
  unfold totalCost
  apply List.sum_eq_zero
  intro v hv
  simp only [List.mem_map] at hv
  obtain ⟨dir, _, rfl⟩ := hv
  exact aggCostF_zero o C dir.1 dir.2 hC _ _ _ (Int.natCast_nonneg x)
    (by exact_mod_cast hx) (Int.natCast_nonneg y) (by exact_mod_cast hy)

theorem leftCost_self (L : Image) (a b : ℕ) : leftCost L L a b 0 = 0 := by
  simp [leftCost]

theorem rightCost_self (L : Image) (a b : ℕ) (ha : a < L.width) :
    rightCost L L a b 0 = 0 := by
  simp [rightCost, ha]

theorem disparityAt_self (o : SGMOption) (L : Image)
    (hw : L.width = o.width) (hmd : 0 < o.max_disparity)
    (x y : ℕ) (hx : x < o.width) (hy : y < o.height) :
    disparityAt o L L x y = some 0 := by
  have hL : ∀ a b, a < o.width → b < o.height → leftCost L L a b 0 = 0 :=
    fun a b _ _ => leftCost_self L a b
  have hR : ∀ a b, a < o.width → b < o.height → rightCost L L a b 0 = 0 :=
    fun a b ha _ => rightCost_self L a b (by omega)
  have hf0 : totalCost o (leftCost L L) x y 0 = 0 :=
    totalCost_zero o _ hL x y hx hy
  have hg0 : totalCost o (rightCost L L) x y 0 = 0 :=
    totalCost_zero o _ hR x y hx hy
  have hbest :
      argminCost (fun d => totalCost o (leftCost L L) x y d)
        o.max_disparity = 0 :=
    argminCost_eq_zero _ _ hmd hf0
  have hbestR :
      argminCost (fun d => totalCost o (rightCost L L) x y d)
        o.max_disparity = 0 :=
    argminCost_eq_zero _ _ hmd hg0
  unfold disparityAt
  simp only [hbest, Nat.sub_zero, hbestR]
  rw [if_neg (by simp [uniquenessReject, hf0])]
  rw [if_neg (by simp)]
  cases hsub : o.subpixel with
  | false => simp
  | true => simp [refine]

theorem refine_bounds (f : ℕ → ℕ) (n d : ℕ) (hd : d < n)
    (hmin : ∀ k, k < n → f d ≤ f k) :
    0 ≤ refine f d n ∧ refine f d n < n := by
  unfold refine
  split
  · rename_i hcond
    obtain ⟨h1, h2⟩ := hcond
    split
    · rename_i hden
      have hm : (f d : ℚ) ≤ (f (d - 1) : ℚ) := by
        exact_mod_cast hmin (d - 1) (by omega)
      have hp : (f d : ℚ) ≤ (f (d + 1) : ℚ) := by
        exact_mod_cast hmin (d + 1) (by omega)
      set cm : ℚ := (f (d - 1) : ℚ) with hcm
      set c0 : ℚ := (f d : ℚ) with hc0
      set cp : ℚ := (f (d + 1) : ℚ) with hcp
      have h2den : (0 : ℚ) < 2 * (cm + cp - 2 * c0) := by linarith
      have hub : (cm - cp) / (2 * (cm + cp - 2 * c0)) ≤ 1 / 2 := by
        rw [div_le_div_iff₀ h2den (by norm_num)]
        linarith
      have hlb : -(1 / 2 : ℚ) ≤ (cm - cp) / (2 * (cm + cp - 2 * c0)) := by
        rw [le_div_iff₀ h2den]
        linarith
      have hd1 : (1 : ℚ) ≤ (d : ℚ) := by exact_mod_cast h1
      have hdn : (d : ℚ) + 2 ≤ (n : ℚ) := by exact_mod_cast h2
      constructor
      · linarith
      · linarith
    · constructor
      · positivity
      · exact_mod_cast hd
  · constructor
    · positivity
    · exact_mod_cast hd

theorem disparityAt_range (o : SGMOption) (L R : Image) (x y : ℕ) (q : ℚ)
    (hmd : 0 < o.max_disparity) (h : disparityAt o L R x y = some q) :
    0 ≤ q ∧ q < o.max_disparity := by
  simp only [disparityAt] at h
  have hlt :
      argminCost (fun d => totalCost o (leftCost L R) x y d)
        o.max_disparity < o.max_disparity :=
    argminCost_lt _ _ hmd
  split at h
  · exact absurd h (by simp)
  · split at h
    · exact absurd h (by simp)
    · split at h
      · have := refine_bounds (fun d => totalCost o (leftCost L R) x y d)
          o.max_disparity _ hlt
          (argminCost_le (fun d => totalCost o (leftCost L R) x y d)
            o.max_disparity hmd)
        rw [Option.some_inj] at h
        subst h
        exact this
      · rw [Option.some_inj] at h
        subst h
        constructor
        · positivity
        · exact_mod_cast hlt

theorem semiGlobalMatching_ok (o : SGMOption) (e : Engine)
    (he : SemiGlobalMatching o = Except.ok e) :
    e.options = o ∧ 0 < o.width ∧ 0 < o.height ∧ 0 < o.max_disparity := by
  unfold SemiGlobalMatching at he
  split at he
  · rename_i hvalid
    injection he with he'
    subst he'
    exact ⟨rfl, hvalid⟩
  · cases he

theorem process_frame_ok_dims (e : Engine) (L R : Image) (m : DisparityMap)
    (hm : process_frame e L R = Except.ok m) :
    L.width = e.options.width ∧ L.height = e.options.height ∧
    R.width = e.options.width ∧ R.height = e.options.height := by
  simp only [process_frame] at hm
  split at hm
  · assumption
  · cases hm

theorem process_frame_ok_data (e : Engine) (L R : Image) (m : DisparityMap)
    (hm : process_frame e L R = Except.ok m) :
    m.data = (List.range (e.options.height * e.options.width)).map
      (fun i =>
        disparityAt e.options L R (i % e.options.width)
          (i / e.options.width)) := by
  simp only [process_frame] at hm
  split at hm
  · injection hm with hm'
    subst hm'
    rfl
  · cases hm

/-- C1: for every configuration accepted at construction and every pair of
input images accepted by `process_frame`, every valid pixel of the
returned disparity map carries a disparity in the half-open range
`[0, max_disparity)`; invalid pixels carry the sentinel instead.  In
particular the half-open bound of the testable-properties section is the
correct one: the closed upper bound `max_disparity` of the data-model
section is never attained. -/
theorem process_frame_disparity_in_range (o : SGMOption) (e : Engine)
    (L R : Image) (m : DisparityMap) (i : ℕ) (q : ℚ)
    (he : SemiGlobalMatching o = Except.ok e)
    (hm : process_frame e L R = Except.ok m)
    (hq : m.data[i]? = some (some q)) :
    0 ≤ q ∧ q < o.max_disparity := by
  obtain ⟨hopt, _, _, hmd⟩ := semiGlobalMatching_ok o e he
  have hdata := process_frame_ok_data e L R m hm
  rw [hdata, List.getElem?_map] at hq
  rcases hopt' : (List.range (e.options.height * e.options.width))[i]? with
    _ | a
  · rw [hopt'] at hq; cases hq
  · rw [hopt'] at hq
    simp only [Option.map_some'] at hq
    rw [Option.some_inj] at hq
    have := List.getElem?_mem hopt'
    exact disparityAt_range e.options L R (a % e.options.width)
      (a / e.options.width) q (by rw [hopt]; exact hmd) hq |>.imp id
      (fun h => by rw [hopt] at h; exact h)

/-- C4: for every valid configuration and every image of the configured
size, `process_frame` on the pair (I, I) yields disparity exactly 0 at
every pixel (border pixels included, hence at every non-border pixel). -/
theorem process_frame_identical_zero (o : SGMOption) (e : Engine)
    (L : Image) (m : DisparityMap) (i : ℕ)
    (he : SemiGlobalMatching o = Except.ok e)
    (hm : process_frame e L L = Except.ok m)
    (hi : i < m.data.length) :
    m.data[i]? = some (some 0) := by
  obtain ⟨hopt, hw, hh, hmd⟩ := semiGlobalMatching_ok o e he
  obtain ⟨hLw, _, _, _⟩ := process_frame_ok_dims e L L m hm
  have hdata := process_frame_ok_data e L L m hm
  rw [hdata] at hi ⊢
  rw [List.length_map, List.length_range] at hi
  rw [List.getElem?_map, List.getElem?_range hi]
  have hwpos : 0 < e.options.width := by rw [hopt]; exact hw
  have hx : i % e.options.width < e.options.width := Nat.mod_lt _ hwpos
  have hy : i / e.options.width < e.options.height :=
    (Nat.div_lt_iff_lt_mul hwpos).mpr hi
  simp only [Option.map_some']
  rw [disparityAt_self e.options L (by rw [hLw]) (by rw [hopt]; exact hmd)
    _ _ hx hy]

/-- Witness for C1: on the 1×1 identical pair the engine accepts, the
valid pixel value 0 lies in `[0, max_disparity)`. -/
theorem process_frame_disparity_in_range_witness :
    0 ≤ (0 : ℚ) ∧ (0 : ℚ) < (wOpt.max_disparity : ℚ) :=
  process_frame_disparity_in_range wOpt wEng wImg wImg wDispMap 0 0 (by rfl)
    (by rfl) (by rfl)

/-- Witness for C4: processing the concrete 1×1 image against itself
yields disparity 0 at pixel 0. -/
theorem process_frame_identical_zero_witness :
    wDispMap.data[0]? = some (some (0 : ℚ)) :=
  process_frame_identical_zero wOpt wEng wImg wDispMap 0 (by rfl) (by rfl)
    (by decide)

/-- C2: a `process_frame` call whose input dimensions disagree with the
configured `options.width × options.height` fails with
`DimensionMismatchError`, returns no partial result, and leaves the
engine state and both input images unchanged — the call fails
atomically. -/
theorem process_frame_dimension_mismatch (e : Engine) (L R : Image)
    (h : ¬(L.width = e.options.width ∧ L.height = e.options.height ∧
           R.width = e.options.width ∧ R.height = e.options.height)) :
    processFrameCall e L R =
      (Except.error SGMError.dimensionMismatchError, e, L, R) := by
  simp only [processFrameCall, process_frame]
  rw [if_neg h]

/-- Witness for C2: the spec's own example — a 100×50 configuration fed a
90×50 image — fails with `DimensionMismatchError` and changes nothing. -/
theorem process_frame_dimension_mismatch_witness :
    processFrameCall ⟨wOpt100⟩ wImg90 wImg90 =
      (Except.error SGMError.dimensionMismatchError, ⟨wOpt100⟩, wImg90,
        wImg90) :=
  process_frame_dimension_mismatch ⟨wOpt100⟩ wImg90 wImg90 (by decide)

/-- C3: engine construction succeeds exactly when `options.width > 0`,
`options.height > 0` and `max_disparity > 0`, fails with `ConfigError`
otherwise, and `process_frame` never raises `ConfigError`. -/
theorem semiGlobalMatching_validation (o : SGMOption) :
    ((∃ e, SemiGlobalMatching o = Except.ok e) ↔
      0 < o.width ∧ 0 < o.height ∧ 0 < o.max_disparity) ∧
    (¬(0 < o.width ∧ 0 < o.height ∧ 0 < o.max_disparity) →
      SemiGlobalMatching o = Except.error SGMError.configError) ∧
    ∀ (e : Engine) (L R : Image),
      process_frame e L R ≠ Except.error SGMError.configError := by
  refine ⟨⟨?_, ?_⟩, ?_, ?_⟩
  · rintro ⟨e, he⟩
    exact (semiGlobalMatching_ok o e he).2
  · intro h
    exact ⟨⟨o⟩, by simp [SemiGlobalMatching, h]⟩
  · intro h
    simp [SemiGlobalMatching, h]
  · intro e L R hcontra
    simp only [process_frame] at hcontra
    split at hcontra
    · cases hcontra
    · simp at hcontra

/-- Witness for C3: a zero-width configuration is rejected with
`ConfigError`, and a `process_frame` call on the concrete valid engine is
not a `ConfigError`. -/
theorem semiGlobalMatching_validation_witness :
    SemiGlobalMatching { wOpt with width := 0 } =
      Except.error SGMError.configError ∧
    process_frame wEng wImg wImg ≠ Except.error SGMError.configError :=
  ⟨(semiGlobalMatching_validation { wOpt with width := 0 }).2.1 (by decide),
   (semiGlobalMatching_validation wOpt).2.2 wEng wImg wImg⟩

/-- Counterexample for C5: with the valid pixel value 100, scaling by 10
(clamped to 255) and then by 1/10 yields 51/2, while the single composed
call yields 100 — clamping in the first call breaks the composition
law. -/
theorem linear_transform_compose_cex :
    (cexMap.linear_transform 10 0).linear_transform (1 / 10) 0 ≠
      cexMap.linear_transform (10 * (1 / 10)) (0 * (1 / 10) + 0) := by
  intro hEq
  have hdata := congrArg DisparityMap.data hEq
  norm_num [cexMap, DisparityMap.linear_transform, clampQ, OUT_LO, OUT_HI]
    at hdata

/-- C5 (amended): applying `linear_transform` with `(s1, o1)` and then
`(s2, o2)` equals the single call with `(s1*s2, o1*s2+o2)` provided every
valid pixel's intermediate value `v*s1 + o1` already lies inside the
output value range, so that the first call does not clamp; with clamping
in play the law fails (see the counterexample). -/
theorem linear_transform_compose (m : DisparityMap) (s1 o1 s2 o2 : ℚ)
    (h : ∀ p ∈ m.data, ∀ v : ℚ, p = some v →
      OUT_LO ≤ v * s1 + o1 ∧ v * s1 + o1 ≤ OUT_HI) :
    (m.linear_transform s1 o1).linear_transform s2 o2 =
      m.linear_transform (s1 * s2) (o1 * s2 + o2) := by
  simp only [DisparityMap.linear_transform]
  congr 1
  rw [List.map_map]
  apply List.map_congr_left
  intro p hp
  cases p with
  | none => rfl
  | some v =>
    obtain ⟨h1, h2⟩ := h (some v) hp v rfl
    simp only [Function.comp, Option.map_some']
    have hcl : clampQ OUT_LO OUT_HI (v * s1 + o1) = v * s1 + o1 := by
      unfold clampQ
      rw [if_neg (not_lt.mpr h1), if_neg (not_lt.mpr h2)]
    rw [hcl]
    congr 1
    ring_nf

/-- Witness for C5 (amended): a concrete map whose single valid pixel
stays inside the output range under the first transform satisfies the
composition law. -/
theorem linear_transform_compose_witness :
    (wMap.linear_transform 2 3).linear_transform 1 0 =
      wMap.linear_transform (2 * 1) (3 * 1 + 0) :=
  linear_transform_compose wMap 2 3 1 0 (by
    intro p hp v hv
    subst hv
    simp only [wMap, List.mem_cons, List.not_mem_nil, or_false] at hp
    rcases hp with hp | hp
    · rw [Option.some_inj] at hp
      subst hp
      constructor <;> norm_num [OUT_LO, OUT_HI]
    · simp at hp)

/-- C6: `linear_transform` keeps the dimensions and pixel count, maps
each valid pixel `v` to `v*scale + offset` clamped to the output value
range, passes invalid pixels through unchanged, never fails (it is a
total function), and an omitted `offset` defaults to 0. -/
theorem linear_transform_pointwise (m : DisparityMap) (s o : ℚ) (i : ℕ) :
    (m.linear_transform s o).width = m.width ∧
    (m.linear_transform s o).height = m.height ∧
    (m.linear_transform s o).data.length = m.data.length ∧
    (m.data[i]? = some none →
      (m.linear_transform s o).data[i]? = some none) ∧
    (∀ v : ℚ, m.data[i]? = some (some v) →
      (m.linear_transform s o).data[i]? =
        some (some (clampQ OUT_LO OUT_HI (v * s + o)))) ∧
    m.linear_transform s = m.linear_transform s 0 := by
  refine ⟨rfl, rfl, by simp [DisparityMap.linear_transform], ?_, ?_, rfl⟩
  · intro h
    simp [DisparityMap.linear_transform, List.getElem?_map, h]
  · intro v h
    simp [DisparityMap.linear_transform, List.getElem?_map, h]

/-- Witness for C6: on the concrete two-pixel map, the invalid pixel
passes through and the valid pixel 3 becomes `clamp(3*2 + 1)`. -/
theorem linear_transform_pointwise_witness :
    (wMap.linear_transform 2 1).data[1]? = some none ∧
    (wMap.linear_transform 2 1).data[0]? =
      some (some (clampQ OUT_LO OUT_HI (3 * 2 + 1))) :=
  ⟨(linear_transform_pointwise wMap 2 1 1).2.2.2.1 (by rfl),
   (linear_transform_pointwise wMap 2 1 0).2.2.2.2.1 3 (by rfl)⟩

/-- C7: running `process_frame` twice in sequence on the same engine
instance with the same inputs yields identical outputs, because the first
call leaves the engine state unchanged (no carried-over state). -/
theorem processFrameCall_idempotent (s : Engine) (L R : Image) :
    (processFrameCall ((processFrameCall s L R).2.1) L R).1 =
      (processFrameCall s L R).1 ∧
    (processFrameCall s L R).2.1 = s :=
  ⟨rfl, rfl⟩

/-- C8: a `process_frame` call returns both input images and the engine
state unchanged, and its only product is the disparity map computed by
the pure pipeline from the input values. -/
theorem processFrameCall_no_mutation (s : Engine) (L R : Image) :
    (processFrameCall s L R).2.2.1 = L ∧
    (processFrameCall s L R).2.2.2 = R ∧
    (processFrameCall s L R).2.1 = s ∧
    (processFrameCall s L R).1 = process_frame s L R :=
  ⟨rfl, rfl, rfl, rfl⟩

/-- C9: in the example script the configuration's width/height come from
the left image, so (once the engine is constructed) the `process_frame`
call fails with `DimensionMismatchError` exactly when the right image's
dimensions differ from the left image's; the left image itself always
passes the dimension check, and matching dimensions produce a full
disparity map. -/
theorem script_dimension_check (base : SGMOption) (limg rimg : Image)
    (e : Engine)
    (he : SemiGlobalMatching (scriptParams base limg) = Except.ok e) :
    (process_frame e limg rimg =
        Except.error SGMError.dimensionMismatchError ↔
      (rimg.width ≠ limg.width ∨ rimg.height ≠ limg.height)) ∧
    (rimg.width = limg.width → rimg.height = limg.height →
      process_frame e limg rimg =
        Except.ok ⟨limg.width, limg.height,
          (List.range (limg.height * limg.width)).map
            (fun i => disparityAt (scriptParams base limg) limg rimg
              (i % limg.width) (i / limg.width))⟩) := by
  obtain ⟨hopt, _, _, _⟩ := semiGlobalMatching_ok _ e he
  cases e with
  | mk opts =>
    simp only at hopt
    subst hopt
    constructor
    · constructor
      · intro herr
        by_contra hcon
        push_neg at hcon
        obtain ⟨hw', hh'⟩ := hcon
        simp [process_frame, scriptParams, hw', hh'] at herr
      · intro hne
        simp only [process_frame, scriptParams]
        rw [if_neg (by tauto)]
    · intro hw' hh'
      simp [process_frame, scriptParams, hw', hh']

/-- Witness for C9: the script model built over the concrete 2×2 left
image rejects the concrete 1×2 right image with
`DimensionMismatchError`. -/
theorem script_dimension_check_witness :
    process_frame wEng2 wImg2 wImgR =
      Except.error SGMError.dimensionMismatchError :=
  (script_dimension_check wOpt wImg2 wImgR wEng2 (by rfl)).1.mpr (by decide)

end SGM
